import Mathlib

/-!
Verification of the group policy engine of `internet.py` (v1.5.4).

The Python source is shallowly embedded below.  Strings are Lean `String`s
(manipulated through their underlying `List Char`, matching Python 2 byte
strings on the ASCII data the program handles), Python `int` becomes `Int`
or `Nat`, dictionaries become association lists with unique keys, and a
Python expression that can raise (`int(...)` on a malformed literal, an
attribute access on `None`) is modelled with `Option`: `none` is the raised
exception.
-/

namespace Internet

/-- Strict byte-lexicographic comparison of char lists, the order Python's
`list.sort()` uses on strings (ordinal comparison, shorter prefix first). -/
def strLtChars : List Char → List Char → Bool
  | [], [] => false
  | [], _ :: _ => true
  | _ :: _, [] => false
  | a :: as, b :: bs =>
    if a.toNat < b.toNat then true
    else if b.toNat < a.toNat then false
    else strLtChars as bs

/-- Boolean `a <= b` on strings, byte-lexicographic as in Python. -/
def strLeb (a b : String) : Bool := !(strLtChars b.data a.data)

/-- Embedding of Python's `list.sort()` on a list of strings. -/
def strSort (l : List String) : List String :=
  List.insertionSort (fun a b => strLeb a b = true) l

theorem strLtChars_cons (a b : Char) (as bs : List Char) :
    strLtChars (a :: as) (b :: bs) = true ↔
      a.toNat < b.toNat ∨ (a.toNat = b.toNat ∧ strLtChars as bs = true) := by
  simp only [strLtChars]
  split
  · rename_i h1
    simp [h1]
  · rename_i h1
    split
    · rename_i h2
      constructor
      · intro h
        cases h
      · intro h
        rcases h with h | ⟨h, _⟩ <;> omega
    · rename_i h2
      constructor
      · intro h
        right
        exact ⟨by omega, h⟩
      · intro h
        rcases h with h | ⟨_, h⟩
        · omega
        · exact h

theorem strLtChars_irrefl : ∀ a : List Char, strLtChars a a = false
  | [] => rfl
  | a :: as => by
    simp only [strLtChars, Nat.lt_irrefl, if_false]
    exact strLtChars_irrefl as

theorem strLtChars_trans : ∀ a b c : List Char, strLtChars a b = true →
    strLtChars b c = true → strLtChars a c = true
  | [], [], _, h, _ => by simp [strLtChars] at h
  | [], _ :: _, [], _, h => by simp [strLtChars] at h
  | [], _ :: _, _ :: _, _, _ => by simp [strLtChars]
  | _ :: _, [], _, h, _ => by simp [strLtChars] at h
  | _ :: _, _ :: _, [], _, h => by simp [strLtChars] at h
  | a :: as, b :: bs, c :: cs, h1, h2 => by
    rw [strLtChars_cons] at h1 h2 ⊢
    rcases h1 with h1 | ⟨e1, h1⟩ <;> rcases h2 with h2 | ⟨e2, h2⟩
    · left; omega
    · left; omega
    · left; omega
    · exact Or.inr ⟨by omega, strLtChars_trans as bs cs h1 h2⟩

theorem strLtChars_trich : ∀ a b : List Char,
    strLtChars a b = true ∨ a = b ∨ strLtChars b a = true
  | [], [] => by simp [strLtChars]
  | [], _ :: _ => by simp [strLtChars]
  | _ :: _, [] => by simp [strLtChars]
  | a :: as, b :: bs => by
    rcases Nat.lt_trichotomy a.toNat b.toNat with h | h | h
    · left
      rw [strLtChars_cons]
      exact Or.inl h
    · have hab : a = b := by
        have h1 := Char.ofNat_toNat a
        rw [← h1, h, Char.ofNat_toNat]
      subst hab
      rcases strLtChars_trich as bs with h1 | h1 | h1
      · left
        rw [strLtChars_cons]
        exact Or.inr ⟨rfl, h1⟩
      · right; left; rw [h1]
      · right; right
        rw [strLtChars_cons]
        exact Or.inr ⟨rfl, h1⟩
    · right; right
      rw [strLtChars_cons]
      exact Or.inl h

instance : IsTrans String (fun a b => strLeb a b = true) := by
  constructor
  intro a b c hab hbc
  simp only [strLeb, Bool.not_eq_true', Bool.not_eq_true] at hab hbc ⊢
  by_contra hca
  rw [Bool.not_eq_false] at hca
  rcases strLtChars_trich b.data c.data with h | h | h
  · rw [strLtChars_trans _ _ _ h hca] at hab
    cases hab
  · rw [← h] at hca
    rw [hca] at hab
    cases hab
  · rw [h] at hbc
    cases hbc

instance : IsTotal String (fun a b => strLeb a b = true) := by
  constructor
  intro a b
  simp only [strLeb, Bool.not_eq_true', Bool.not_eq_true]
  rcases strLtChars_trich a.data b.data with h | h | h
  · left
    by_contra hba
    rw [Bool.not_eq_false] at hba
    have := strLtChars_trans _ _ _ h hba
    rw [strLtChars_irrefl] at this
    cases this
  · left
    rw [h, strLtChars_irrefl]
  · right
    by_contra hab
    rw [Bool.not_eq_false] at hab
    have := strLtChars_trans _ _ _ h hab
    rw [strLtChars_irrefl] at this
    cases this

/-- Associativity of string concatenation, used for body rendering. -/
theorem strApp_assoc (a b c : String) : a ++ b ++ c = a ++ (b ++ c) := by
  cases a with
  | mk as =>
    cases b with
    | mk bs =>
      cases c with
      | mk cs =>
        show String.mk ((as ++ bs) ++ cs) = String.mk (as ++ (bs ++ cs))
        exact congrArg String.mk (List.append_assoc as bs cs)

/-- ASCII lowercasing, the effect of Python 2 `str.lower()` on byte strings. -/
def lowerStr (s : String) : String := String.mk (s.data.map Char.toLower)

/-- A policy group: `hours`, `domains` and `days` exactly as in the JSON
document shape (`internet.py` lines 455-468 and 618-624). -/
structure Group where
  hours : List String
  domains : List String
  days : List String
deriving DecidableEq

/-- The policy store: the `active` name list and the `groups` mapping
(an association list with unique keys standing for the JSON dict). -/
structure Store where
  active : List String
  groups : List (String × Group)
deriving DecidableEq

/-- An instant, reduced to what `_is_live` reads off `datetime.now()`:
`now.hour` and `now.weekday()`. -/
structure Instant where
  hour : Nat
  weekday : Nat
deriving DecidableEq

/-- Dict lookup `self.data.get('groups').get(name)`. -/
def lookupGroup (st : Store) (name : String) : Option Group :=
  st.groups.lookup name

/-- Dict assignment `self.data.get('groups')[name] = gr`: replace the first
binding of the key, or append a new one. -/
def updateAssoc : List (String × Group) → String → Group → List (String × Group)
  | [], n, gr => [(n, gr)]
  | p :: rest, n, gr => if p.1 = n then (n, gr) :: rest else p :: updateAssoc rest n gr

/-- Store with one group binding replaced or added. -/
def setGroup (st : Store) (name : String) (gr : Group) : Store :=
  { st with groups := updateAssoc st.groups name gr }

theorem lookup_updateAssoc_self : ∀ (l : List (String × Group)) (n : String) (gr : Group),
    (updateAssoc l n gr).lookup n = some gr
  | [], n, gr => by simp [updateAssoc, List.lookup]
  | (k, v) :: rest, n, gr => by
    by_cases h : k = n
    · simp [updateAssoc, h, List.lookup]
    · simp only [updateAssoc, h, if_false, List.lookup]
      have hbeq : (n == k) = false := by
        simp only [beq_eq_false_iff_ne, ne_eq]
        exact fun hh => h hh.symm
      rw [hbeq]
      exact lookup_updateAssoc_self rest n gr

theorem lookup_updateAssoc_ne : ∀ (l : List (String × Group)) (n m : String) (gr : Group),
    m ≠ n → (updateAssoc l n gr).lookup m = l.lookup m
  | [], n, m, gr, hne => by
    simp only [updateAssoc, List.lookup]
    have hbeq : (m == n) = false := by
      simp only [beq_eq_false_iff_ne, ne_eq]
      exact hne
    rw [hbeq]
  | (k, v) :: rest, n, m, gr, hne => by
    by_cases h : k = n
    · subst h
      simp only [updateAssoc, if_pos rfl, List.lookup]
      have hbeq : (m == k) = false := by
        simp only [beq_eq_false_iff_ne, ne_eq]
        exact hne
      rw [hbeq]
    · simp only [updateAssoc, h, if_false, List.lookup]
      cases hkm : (m == k) with
      | true => rfl
      | false => exact lookup_updateAssoc_ne rest n m gr hne

theorem updateAssoc_self : ∀ (l : List (String × Group)) (n : String) (gr : Group),
    l.lookup n = some gr → updateAssoc l n gr = l
  | [], n, gr, h => by simp [List.lookup] at h
  | (k, v) :: rest, n, gr, h => by
    by_cases hk : k = n
    · subst hk
      simp only [List.lookup, beq_self_eq_true] at h
      injection h with h
      simp [updateAssoc, h]
    · have hbeq : (n == k) = false := by
        simp only [beq_eq_false_iff_ne, ne_eq]
        exact fun hh => hk hh.symm
      simp only [List.lookup, hbeq] at h
      simp only [updateAssoc, hk, if_false]
      rw [updateAssoc_self rest n gr h]

/-- Python `int(s)` on a string (lines 562): optional surrounding
whitespace, an optional sign, then decimal digits; anything else raises
`ValueError`, modelled as `none`. -/
def stripWs (cs : List Char) : List Char :=
  ((cs.dropWhile Char.isWhitespace).reverse.dropWhile Char.isWhitespace).reverse

/-- Value of a nonempty list of decimal digits. -/
def digitsVal (cs : List Char) : Nat :=
  cs.foldl (fun a c => 10 * a + (c.toNat - 48)) 0

/-- Python `int()` applied to the characters of a string. -/
def pyIntChars (cs : List Char) : Option Int :=
  match stripWs cs with
  | [] => none
  | c :: rest =>
    if c = '-' then
      if !rest.isEmpty && rest.all Char.isDigit then some (-(digitsVal rest : Int)) else none
    else if c = '+' then
      if !rest.isEmpty && rest.all Char.isDigit then some ((digitsVal rest : Int)) else none
    else
      if (c :: rest).all Char.isDigit then some ((digitsVal (c :: rest) : Int)) else none

/-- Python `str.partition('-')` (line 561), restricted to the two parts the
code destructures: the characters before the first `'-'` and those after it
(everything, when there is no `'-'`, ends up in the first part). -/
def splitDashAux : List Char → List Char × List Char
  | [] => ([], [])
  | c :: rest =>
    if c = '-' then ([], rest)
    else
      let p := splitDashAux rest
      (c :: p.1, p.2)

/-- One iteration of the hour loop of `_is_live` (lines 559-566) for a
single stored spec.  A spec containing `'-'` is treated as a range
`start-end`, matched half-open (`hour >= int(start) and hour < int(end)`,
with Python's short-circuit: `int(end)` is only evaluated when the first
comparison holds).  A spec without `'-'` reaches `if hour == str`, which
compares the `int` hour with a `str`: in Python 2 (and 3) an `int` never
equals a `str`, so this branch never matches — modelled as `some false`. -/
def hourSpecMatch (spec : String) (hour : Nat) : Option Bool :=
  if ('-') ∈ spec.data then
    match pyIntChars (splitDashAux spec.data).1 with
    | none => none
    | some a =>
      if a ≤ (hour : Int) then
        match pyIntChars (splitDashAux spec.data).2 with
        | none => none
        | some b => some (decide ((hour : Int) < b))
      else some false
  else some false

/-- The hour loop of `_is_live` (lines 558-566): `in_hours` starts `False`,
each spec is tested in order (no break), a raise anywhere aborts. -/
def in_hoursLoop (hours : List String) (hour : Nat) : Option Bool :=
  hours.foldl
    (fun acc spec =>
      match acc with
      | none => none
      | some b =>
        match hourSpecMatch spec hour with
        | none => none
        | some m => some (b || m))
    (some false)

/-- The hour check of `_is_live` (lines 555-566): wildcard first, else the
loop over concrete specs. -/
def in_hours (hours : List String) (hour : Nat) : Option Bool :=
  if ("*") ∈ hours then some true else in_hoursLoop hours hour

/-- Weekday-number-to-name map of `_is_live` (lines 537-545), with the
dict's default `'*'`. -/
def dayName (w : Nat) : String :=
  match w with
  | 0 => ("Monday")
  | 1 => ("Tuesday")
  | 2 => ("Wednesday")
  | 3 => ("Thursday")
  | 4 => ("Friday")
  | 5 => ("Saturday")
  | 6 => ("Sunday")
  | _ => ("*")

/-- The day check of `_is_live` (lines 548-552). -/
def in_day (days : List String) (w : Nat) : Bool :=
  if ("*") ∈ days then true
  else if dayName w ∈ days then true
  else false

/-- `_is_live(groupname)` (lines 526-568): a missing group is not live (no
error); otherwise the day check and the hour check are both computed and
conjoined.  `none` is a raised exception from `int()` on a malformed
range bound. -/
def is_live (st : Store) (groupname : String) (now : Instant) : Option Bool :=
  match lookupGroup st groupname with
  | none => some false
  | some gr =>
    match in_hours gr.hours now.hour with
    | none => none
    | some ih => some (ih && in_day gr.days now.weekday)

/-- The guard `re.search('[0-9-\*]', hour)` of the add-hour block (line
627): the spec is accepted as soon as any single character is a digit, a
hyphen or an asterisk (this also covers Python's truthiness test, since
the empty string has no characters). -/
def hourGuard (spec : String) : Bool :=
  spec.data.any (fun c => c.isDigit || c == ('-') || c == ('*'))

/-- Dedup-and-sort step `hours = list(set(hours)); hours.sort()` (lines
641-642 and 661-662).  A Python set is unordered, so the composite is the
ascending sorted list of the distinct elements. -/
def pySortedSet (l : List String) : List String :=
  strSort l.dedup

/-- The wildcard-collapsing core of the add-hour block (lines 633-643),
applied once the guard has passed. -/
def collapseHours (hours : List String) (spec : String) : List String :=
  pySortedSet
    (if spec = ("*") then [("*")]
     else if ("*") ∈ hours then [spec]
     else hours ++ [spec])

/-- Effect of the whole add-hour block (lines 627-643) on the hours list:
guarded collapse, identity when the guard rejects the spec. -/
def addHourList (hours : List String) (spec : String) : List String :=
  if hourGuard spec then collapseHours hours spec else hours

/-- The `days_map` list (line 646). -/
def daysMap : List String :=
  [("Monday"), ("Tuesday"), ("Wednesday"), ("Thursday"), ("Friday"),
   ("Saturday"), ("Sunday"), ("*")]

/-- The guard `day in days_map` of the add-day block (line 647). -/
def dayGuard (spec : String) : Bool :=
  decide (spec ∈ daysMap)

/-- The wildcard-collapsing core of the add-day block (lines 653-663). -/
def collapseDays (days : List String) (spec : String) : List String :=
  pySortedSet
    (if spec = ("*") then [("*")]
     else if ("*") ∈ days then [spec]
     else days ++ [spec])

/-- Effect of the whole add-day block (lines 646-663) on the days list. -/
def addDayList (days : List String) (spec : String) : List String :=
  if dayGuard spec then collapseDays days spec else days

/-- The seven characters of `'http://'`. -/
def httpChars : List Char := ['h', 't', 't', 'p', ':', '/', '/']

/-- Boolean check that the second list starts with the first. -/
def startsWithChars : List Char → List Char → Bool
  | [], _ => true
  | _ :: _, [] => false
  | p :: ps, c :: cs => p == c && startsWithChars ps cs

/-- Domain normalization of the add-domain block (lines 667-669):
lowercase, then strip a leading `http://` (`re.match` anchors at the
start of the string). -/
def normalizeDomain (d : String) : String :=
  let low := lowerStr d
  if startsWithChars httpChars low.data then String.mk (low.data.drop 7) else low

/-- Effect of the add-domain block (lines 666-670) on the domains list:
the normalized domain is appended unconditionally. -/
def addDomainList (domains : List String) (d : String) : List String :=
  let low := lowerStr d
  let dm := if startsWithChars httpChars low.data then String.mk (low.data.drop 7) else low
  domains ++ [dm]

/-- Group-name resolution of `add` (lines 613-616): a missing or empty
(falsy) `--group` value means `'default'`, otherwise the name is
lowercased. -/
def addGroupname (g : Option String) : String :=
  match g with
  | none => ("default")
  | some s => if s = ("") then ("default") else lowerStr s

/-- The implicit group skeleton created by `add` (lines 617-624). -/
def defaultGroup : Group := ⟨[("*")], [], [("*")]⟩

/-- Group creation step of `add` (lines 613-624): only an explicit,
truthy `--group` value triggers creation of a missing group. -/
def createStep (st : Store) (g : Option String) : Store :=
  match g with
  | none => st
  | some s =>
    if s = ("") then st
    else
      match lookupGroup st (lowerStr s) with
      | some _ => st
      | none => setGroup st (lowerStr s) defaultGroup

/-- The add-hour block of `add` (lines 627-643) at store level.  When the
guard passes but the group is missing (only possible for a deleted
`default` group), line 630 dereferences `None` — a raised
`AttributeError`, modelled as `none`. -/
def hourStep (st : Store) (gname : String) (hour : Option String) : Option Store :=
  match hour with
  | none => some st
  | some spec =>
    if hourGuard spec then
      match lookupGroup st gname with
      | none => none
      | some gr => some (setGroup st gname { gr with hours := collapseHours gr.hours spec })
    else some st

/-- The add-day block of `add` (lines 646-663) at store level. -/
def dayStep (st : Store) (gname : String) (day : Option String) : Option Store :=
  match day with
  | none => some st
  | some spec =>
    if dayGuard spec then
      match lookupGroup st gname with
      | none => none
      | some gr => some (setGroup st gname { gr with days := collapseDays gr.days spec })
    else some st

/-- The add-domain block of `add` (lines 666-670) at store level. -/
def domainStep (st : Store) (gname : String) (domain : Option String) : Option Store :=
  match domain with
  | none => some st
  | some dm =>
    if dm = ("") then some st
    else
      match lookupGroup st gname with
      | none => none
      | some gr => some (setGroup st gname { gr with domains := addDomainList gr.domains dm })

/-- The `add` action (lines 610-678): resolve the group name, create the
group if needed, run the three field blocks, then unconditionally append
the group name to `active` (lines 672-673). -/
def add (st : Store) (g hour day domain : Option String) : Option Store :=
  match hourStep (createStep st g) (addGroupname g) hour with
  | none => none
  | some st2 =>
    match dayStep st2 (addGroupname g) day with
    | none => none
    | some st3 =>
      match domainStep st3 (addGroupname g) domain with
      | none => none
      | some st4 => some { st4 with active := st4.active ++ [addGroupname g] }

/-- The `deactivate` action (lines 781-794): requires the (raw, not
lowercased) name to be present in `active` and in `groups`, then
`list.remove` deletes the first occurrence; otherwise no-op. -/
def deactivate (st : Store) (g : Option String) : Store :=
  match g with
  | none => st
  | some name =>
    if name ∈ st.active ∧ (lookupGroup st name).isSome then
      { st with active := st.active.erase name }
    else st

/-- The `empty` action (lines 737-764): requires a truthy `--group` whose
lowercased name exists, then clears the selected field to `[]`; otherwise
the store is returned unchanged. -/
def emptyField (st : Store) (g : Option String) (kind : String) : Store :=
  match g with
  | none => st
  | some s =>
    if s = ("") then st
    else
      match lookupGroup st (lowerStr s) with
      | none => st
      | some gr =>
        if kind = ("days") then setGroup st (lowerStr s) { gr with days := [] }
        else if kind = ("domains") then setGroup st (lowerStr s) { gr with domains := [] }
        else if kind = ("hours") then setGroup st (lowerStr s) { gr with hours := [] }
        else st

/-- Python `set.add` on a list kept duplicate-free. -/
def insertUniq (l : List String) (d : String) : List String :=
  if d ∈ l then l else d :: l

/-- One iteration of the domain-collection loop of `update_hosts` (lines
830-833): skip a missing group, test `_is_live`, union the group's
domains. -/
def collectStep (st : Store) (now : Instant) (acc : Option (List String)) (name : String) :
    Option (List String) :=
  match acc with
  | none => none
  | some l =>
    match lookupGroup st name with
    | none => some l
    | some gr =>
      match is_live st name now with
      | none => none
      | some true => some (gr.domains.foldl insertUniq l)
      | some false => some l

/-- Domain synthesis of `update_hosts` (lines 823-841): collect the
domains of the active, existing, live groups into a set, then sort the
set ascending. -/
def synthesize (st : Store) (now : Instant) : Option (List String) :=
  (st.active.foldl (collectStep st now) (some [])).map strSort

/-- Python `sep.join(parts)`. -/
def pyJoin (sep : String) : List String → String
  | [] => ("")
  | [d] => d
  | d :: rest => d ++ sep ++ pyJoin sep rest

/-- Body rendering of `update_hosts` (lines 838-843), parameterized by the
blackhole address from the settings: an empty domain list renders as the
empty string, otherwise a leading `'\n<bh>\t'` is concatenated with the
domains joined on `'\n<bh>\t'`. -/
def renderBody (bh : String) (domains : List String) : String :=
  if 0 < domains.length then
    ("\n") ++ bh ++ ("\t") ++ pyJoin (("\n") ++ bh ++ ("\t")) domains
  else ("")

/-- Body shape as the specification words it: one line per domain of the
exact form `<bh>(tab)<domain>`, lines joined by a single newline, one
leading blank line before the first entry; empty body for an empty set. -/
def specRenderBody (bh : String) (domains : List String) : String :=
  if domains = [] then ("")
  else ("\n") ++ pyJoin ("\n") (domains.map (fun d => bh ++ ("\t") ++ d))

theorem splitDash_append : ∀ (a b : List Char), ('-') ∉ a →
    splitDashAux (a ++ ('-') :: b) = (a, b)
  | [], b, _ => by simp [splitDashAux]
  | c :: a, b, h => by
    have hc : c ≠ ('-') := by
      intro hcc
      exact h (hcc ▸ List.mem_cons_self c a)
    have ha : ('-') ∉ a := fun hm => h (List.mem_cons_of_mem c hm)
    simp only [List.cons_append, splitDashAux, hc, if_false]
    rw [List.append_eq, splitDash_append a b ha]

theorem hourSpecMatch_range (a b spec : String) (s e : Int) (h : Nat)
    (hspec : spec.data = a.data ++ ('-') :: b.data)
    (hnd : ('-') ∉ a.data)
    (hpa : pyIntChars a.data = some s)
    (hpb : pyIntChars b.data = some e) :
    hourSpecMatch spec h = some (decide (s ≤ (h : Int) ∧ (h : Int) < e)) := by
  have hc : ('-') ∈ spec.data := by
    rw [hspec]
    exact List.mem_append_right _ (List.mem_cons_self _ _)
  unfold hourSpecMatch
  rw [if_pos hc, hspec, splitDash_append a.data b.data hnd]
  simp only [hpa, hpb]
  by_cases hsh : s ≤ (h : Int)
  · rw [if_pos hsh]
    congr 1
    rw [decide_eq_decide]
    constructor
    · intro hlt
      exact ⟨hsh, hlt⟩
    · intro hh
      exact hh.2
  · rw [if_neg hsh]
    congr 1
    rw [eq_comm, decide_eq_false_iff_not]
    intro hh
    exact hsh hh.1

theorem hourSpecMatch_nine_seventeen (h : Nat) :
    hourSpecMatch ("9-17") h = some (decide (9 ≤ h ∧ h < 17)) := by
  have h1 : hourSpecMatch ("9-17") h = some (decide ((9 : Int) ≤ (h : Int) ∧ (h : Int) < 17)) := by
    apply hourSpecMatch_range ("9") ("17")
    · decide
    · decide
    · decide
    · decide
  rw [h1]
  congr 1
  rw [decide_eq_decide]
  omega

theorem in_hours_nine_seventeen (h : Nat) :
    in_hours [("9-17")] h = some (decide (9 ≤ h ∧ h < 17)) := by
  unfold in_hours
  rw [if_neg (by decide)]
  unfold in_hoursLoop
  rw [List.foldl_cons, List.foldl_nil, hourSpecMatch_nine_seventeen]
  simp

/-- Store used as the failing input for C1: group `work` with the single
concrete hour spec `"9"`, wildcard days, and one domain. -/
def workStore : Store :=
  ⟨[("work")], [(("work"), ⟨[("9")], [("example.com")], [("*")]⟩)]⟩

/-- C1: the claim says a single-hour spec matches the current hour on
exact equality.  The code at line 565 compares `hour == str` with an
`int` on the left and a `str` on the right, which is never equal in
Python, so a single-hour spec matches no hour at all: the hour check for
`["9"]` is false at every hour (including 9), and `_is_live` is false for
the `work` group at 9 o'clock on a Monday despite wildcard days.  This
contradicts the claim (and the script's own documentation of `--hour 8`),
so the claim is recorded as a code bug rather than confirmed. -/
theorem intSpec_hour_check_bug :
    (∀ h : Nat, in_hours [("9")] h = some false)
    ∧ is_live workStore ("work") ⟨9, 0⟩ = some false :=
  ⟨fun _ => rfl, by decide⟩

/-- C2: a range spec `start-end` (both endpoints parsed by `int()`, in
[0,23]) matches the current hour `h` iff `start <= h < end`, the upper
bound exclusive; in particular `"9-17"` matches hours 9 through 16 and
rejects 8 and 17. -/
theorem range_spec_half_open (a b spec : String) (s e : Int) (h : Nat)
    (hspec : spec.data = a.data ++ ('-') :: b.data)
    (hnd : ('-') ∉ a.data)
    (hpa : pyIntChars a.data = some s)
    (hpb : pyIntChars b.data = some e)
    (hs0 : 0 ≤ s) (hs23 : s ≤ 23) (he0 : 0 ≤ e) (he23 : e ≤ 23) :
    hourSpecMatch spec h = some (decide (s ≤ (h : Int) ∧ (h : Int) < e))
    ∧ in_hours [("9-17")] h = some (decide (9 ≤ h ∧ h < 17))
    ∧ in_hours [("9-17")] 9 = some true
    ∧ in_hours [("9-17")] 16 = some true
    ∧ in_hours [("9-17")] 8 = some false
    ∧ in_hours [("9-17")] 17 = some false :=
  ⟨hourSpecMatch_range a b spec s e h hspec hnd hpa hpb,
   in_hours_nine_seventeen h, by decide, by decide, by decide, by decide⟩

/-- Witness for C2 at the concrete range `"9-17"` and hour 10. -/
theorem range_spec_half_open_witness :
    (("9-17") : String).data = (("9") : String).data ++ ('-') :: (("17") : String).data
    ∧ pyIntChars (("9") : String).data = some 9
    ∧ pyIntChars (("17") : String).data = some 17
    ∧ hourSpecMatch ("9-17") 10 = some (decide ((9 : Int) ≤ ((10 : Nat) : Int) ∧ ((10 : Nat) : Int) < 17)) :=
  ⟨by decide, by decide, by decide,
   (range_spec_half_open ("9") ("17") ("9-17") 9 17 10 (by decide) (by decide)
     (by decide) (by decide) (by decide) (by decide) (by decide) (by decide)).1⟩

theorem join_chunks (bh : String) : ∀ (rest : List String) (d : String),
    bh ++ ("\t") ++ pyJoin (("\n") ++ bh ++ ("\t")) (d :: rest)
      = pyJoin ("\n") ((d :: rest).map (fun x => bh ++ ("\t") ++ x))
  | [], d => by simp [pyJoin]
  | e :: rest, d => by
    have ih := join_chunks bh rest e
    simp only [pyJoin, List.map_cons] at ih ⊢
    rw [← ih]
    simp only [strApp_assoc]

/-- C5: the rendered body is empty for an empty synthesized set, and
otherwise consists of one `<bh>(tab)<domain>` line per domain, joined by
single newlines, with one leading blank line: the code's fold (a leading
`'\n<bh>\t'` plus a join on `'\n<bh>\t'`) coincides with the per-line
shape the specification describes. -/
theorem render_body_spec (bh : String) (domains : List String) :
    renderBody bh domains = specRenderBody bh domains := by
  cases domains with
  | nil => rfl
  | cons d rest =>
    unfold renderBody specRenderBody
    rw [if_pos (by simp), if_neg (by simp)]
    have hj := join_chunks bh rest d
    simp only [strApp_assoc] at hj ⊢
    rw [hj]

/-- Invariant of the hour/day sets: the wildcard never coexists with
other entries. -/
def wildInv (l : List String) : Prop := ("*") ∈ l → l = [("*")]

theorem pySortedSet_singleton (x : String) : pySortedSet [x] = [x] := by
  unfold pySortedSet strSort
  rw [List.dedup_cons_of_not_mem (List.not_mem_nil x), List.dedup_nil]
  simp [List.insertionSort, List.orderedInsert]

theorem mem_pySortedSet (y : String) (l : List String) :
    y ∈ pySortedSet l ↔ y ∈ l := by
  unfold pySortedSet strSort
  rw [List.mem_insertionSort, List.mem_dedup]

theorem wildInv_collapseHours (s : List String) (spec : String) (hs : wildInv s) :
    wildInv (collapseHours s spec) := by
  unfold collapseHours
  by_cases h1 : spec = ("*")
  · rw [if_pos h1, pySortedSet_singleton]
    intro _
    rfl
  · rw [if_neg h1]
    by_cases h2 : ("*") ∈ s
    · rw [if_pos h2, pySortedSet_singleton]
      intro hmem
      rcases List.mem_singleton.mp hmem with h
      exact absurd h.symm h1
    · rw [if_neg h2]
      intro hmem
      rw [mem_pySortedSet, List.mem_append, List.mem_singleton] at hmem
      rcases hmem with hmem | hmem
      · exact absurd hmem h2
      · exact absurd hmem.symm h1

theorem wildInv_addHourList (s : List String) (spec : String) (hs : wildInv s) :
    wildInv (addHourList s spec) := by
  unfold addHourList
  split
  · exact wildInv_collapseHours s spec hs
  · exact hs

theorem wildInv_foldl_addHourList : ∀ (specs : List String) (s : List String),
    wildInv s → wildInv (List.foldl addHourList s specs)
  | [], s, hs => hs
  | sp :: specs, s, hs => by
    rw [List.foldl_cons]
    exact wildInv_foldl_addHourList specs _ (wildInv_addHourList s sp hs)

theorem wildInv_collapseDays (s : List String) (spec : String) (hs : wildInv s) :
    wildInv (collapseDays s spec) := by
  unfold collapseDays
  by_cases h1 : spec = ("*")
  · rw [if_pos h1, pySortedSet_singleton]
    intro _
    rfl
  · rw [if_neg h1]
    by_cases h2 : ("*") ∈ s
    · rw [if_pos h2, pySortedSet_singleton]
      intro hmem
      rcases List.mem_singleton.mp hmem with h
      exact absurd h.symm h1
    · rw [if_neg h2]
      intro hmem
      rw [mem_pySortedSet, List.mem_append, List.mem_singleton] at hmem
      rcases hmem with hmem | hmem
      · exact absurd hmem h2
      · exact absurd hmem.symm h1

theorem wildInv_addDayList (s : List String) (spec : String) (hs : wildInv s) :
    wildInv (addDayList s spec) := by
  unfold addDayList
  split
  · exact wildInv_collapseDays s spec hs
  · exact hs

theorem wildInv_foldl_addDayList : ∀ (specs : List String) (s : List String),
    wildInv s → wildInv (List.foldl addDayList s specs)
  | [], s, hs => hs
  | sp :: specs, s, hs => by
    rw [List.foldl_cons]
    exact wildInv_foldl_addDayList specs _ (wildInv_addDayList s sp hs)

/-- C3: for the hours field and the days field alike, adding the
wildcard through `add` always yields exactly `["*"]` (whatever the set
held before); adding a concrete accepted spec to a set that is exactly
`["*"]` yields exactly `[that spec]`; and the no-mixing invariant is
preserved by every single add step and hence by every sequence of add
steps. -/
theorem wildcard_collapse (s t : List String) (a b : String)
    (specsH specsD : List String)
    (ha1 : hourGuard a = true) (ha2 : a ≠ ("*"))
    (hb1 : b ∈ daysMap) (hb2 : b ≠ ("*"))
    (hs : wildInv s) (ht : wildInv t) :
    addHourList s ("*") = [("*")]
    ∧ addHourList [("*")] a = [a]
    ∧ wildInv (addHourList s a)
    ∧ wildInv (List.foldl addHourList s specsH)
    ∧ addDayList t ("*") = [("*")]
    ∧ addDayList [("*")] b = [b]
    ∧ wildInv (addDayList t b)
    ∧ wildInv (List.foldl addDayList t specsD) := by
  refine ⟨?_, ?_, ?_, ?_, ?_, ?_, ?_, ?_⟩
  · unfold addHourList collapseHours
    rw [if_pos (by decide), if_pos rfl, pySortedSet_singleton]
  · unfold addHourList collapseHours
    rw [if_pos ha1, if_neg ha2, if_pos (List.mem_singleton_self _), pySortedSet_singleton]
  · exact wildInv_addHourList s a hs
  · exact wildInv_foldl_addHourList specsH s hs
  · unfold addDayList collapseDays dayGuard
    rw [if_pos (by decide), if_pos rfl, pySortedSet_singleton]
  · unfold addDayList collapseDays dayGuard
    rw [if_pos (decide_eq_true hb1), if_neg hb2,
      if_pos (List.mem_singleton_self _), pySortedSet_singleton]
  · exact wildInv_addDayList t b ht
  · exact wildInv_foldl_addDayList specsD t ht

/-- Witness for C3: hours set `["3"]`, days set `["Monday"]`, concrete
specs `"5"` and `"Tuesday"`, and a two-step spec sequence. -/
theorem wildcard_collapse_witness :
    hourGuard ("5") = true
    ∧ ("Tuesday") ∈ daysMap
    ∧ wildInv [("3")]
    ∧ wildInv [("Monday")]
    ∧ addHourList [("3")] ("*") = [("*")] :=
  ⟨by decide, by decide,
   fun h => absurd h (by decide), fun h => absurd h (by decide),
   (wildcard_collapse [("3")] [("Monday")] ("5") ("Tuesday") [("7"), ("*")] [("Wednesday")]
     (by decide) (by decide) (by decide) (by decide)
     (fun h => absurd h (by decide)) (fun h => absurd h (by decide))).1⟩

theorem createStep_active (st : Store) (g : Option String) :
    (createStep st g).active = st.active := by
  cases g with
  | none => rfl
  | some s =>
    by_cases hs : s = ("")
    · simp only [createStep, hs, if_pos]
    · simp only [createStep, hs, if_neg, if_false]
      cases hlook : lookupGroup st (lowerStr s) with
      | none => rfl
      | some gr => rfl

theorem hourStep_active (st st2 : Store) (gname : String) (h : Option String)
    (heq : hourStep st gname h = some st2) : st2.active = st.active := by
  cases h with
  | none =>
    simp only [hourStep] at heq
    injection heq with heq
    rw [← heq]
  | some spec =>
    simp only [hourStep] at heq
    split at heq
    · split at heq
      · cases heq
      · injection heq with heq
        rw [← heq]
        rfl
    · injection heq with heq
      rw [← heq]

theorem dayStep_active (st st2 : Store) (gname : String) (h : Option String)
    (heq : dayStep st gname h = some st2) : st2.active = st.active := by
  cases h with
  | none =>
    simp only [dayStep] at heq
    injection heq with heq
    rw [← heq]
  | some spec =>
    simp only [dayStep] at heq
    split at heq
    · split at heq
      · cases heq
      · injection heq with heq
        rw [← heq]
        rfl
    · injection heq with heq
      rw [← heq]

theorem domainStep_active (st st2 : Store) (gname : String) (h : Option String)
    (heq : domainStep st gname h = some st2) : st2.active = st.active := by
  cases h with
  | none =>
    simp only [domainStep] at heq
    injection heq with heq
    rw [← heq]
  | some spec =>
    simp only [domainStep] at heq
    split at heq
    · injection heq with heq
      rw [← heq]
    · split at heq
      · cases heq
      · injection heq with heq
        rw [← heq]
        rfl

/-- The initial store (lines 455-468): a `default` group with wildcard
hours and days, no domains, and `active = ["default"]`. -/
def defaultStore : Store := ⟨[("default")], [(("default"), defaultGroup)]⟩

/-- Store with one group `w` that already holds `example.com`. -/
def w6Store : Store := ⟨[("w")], [(("w"), ⟨[("*")], [("example.com")], [("*")]⟩)]⟩

/-- C6 counterexample: the claim says `add_domain` appends only if the
domain is not already present, so domains never hold duplicates.  Line
670 appends unconditionally: adding `example.com` to a group already
containing it yields the list `[example.com, example.com]`, which has a
duplicate. -/
theorem add_domain_dup_cex :
    add w6Store (some ("w")) none none (some ("example.com"))
      = some ⟨[("w"), ("w")],
              [(("w"), ⟨[("*")], [("example.com"), ("example.com")], [("*")]⟩)]⟩
    ∧ ¬ ([("example.com"), ("example.com")] : List String).Nodup := by
  constructor
  · decide
  · decide

/-- C6 amended: `add_domain` does store the normalized form — lowercased,
with a leading `http://` stripped, so `HTTP://Example.com` is stored as
`example.com` — but it appends it unconditionally, whether or not it is
already present. -/
theorem add_domain_normalizes (domains : List String) (d : String) :
    addDomainList domains d = domains ++ [normalizeDomain d]
    ∧ normalizeDomain ("HTTP://Example.com") = ("example.com") :=
  ⟨rfl, by decide⟩

/-- C7 counterexample: the claim says `add` adds the group name to
`active` only if not already a member.  Line 673 appends unconditionally:
one `add` on the already-active `default` group leaves `active =
["default", "default"]`, which is not duplicate-free. -/
theorem add_active_dup_cex :
    add defaultStore (some ("default")) none none none
      = some ⟨[("default"), ("default")], [(("default"), defaultGroup)]⟩
    ∧ ¬ ([("default"), ("default")] : List String).Nodup := by
  constructor
  · decide
  · decide

/-- C7 amended: every successful `add` appends the resolved group name to
`active` unconditionally, so `active` is a list that can and does
accumulate duplicates. -/
theorem add_appends_active (st : Store) (g hour day domain : Option String) (st' : Store)
    (h : add st g hour day domain = some st') :
    st'.active = st.active ++ [addGroupname g] := by
  unfold add at h
  cases h2 : hourStep (createStep st g) (addGroupname g) hour with
  | none =>
    rw [h2] at h
    cases h
  | some st2 =>
    rw [h2] at h
    dsimp only at h
    cases h3 : dayStep st2 (addGroupname g) day with
    | none =>
      rw [h3] at h
      cases h
    | some st3 =>
      rw [h3] at h
      dsimp only at h
      cases h4 : domainStep st3 (addGroupname g) domain with
      | none =>
        rw [h4] at h
        cases h
      | some st4 =>
        rw [h4] at h
        dsimp only at h
        injection h with h
        rw [← h]
        show st4.active ++ [addGroupname g] = st.active ++ [addGroupname g]
        rw [domainStep_active st3 st4 _ _ h4, dayStep_active st2 st3 _ _ h3,
          hourStep_active (createStep st g) st2 _ _ h2, createStep_active st g]

/-- Witness for C7 amended: adding a fresh group `x` to the default
store appends `x` to the active list. -/
theorem add_appends_active_witness :
    add defaultStore (some ("x")) none none none
      = some ⟨[("default"), ("x")], [(("default"), defaultGroup), (("x"), defaultGroup)]⟩
    ∧ (⟨[("default"), ("x")], [(("default"), defaultGroup), (("x"), defaultGroup)]⟩ : Store).active
      = defaultStore.active ++ [addGroupname (some ("x"))] :=
  ⟨by decide,
   add_appends_active defaultStore (some ("x")) none none none
     ⟨[("default"), ("x")], [(("default"), defaultGroup), (("x"), defaultGroup)]⟩ (by decide)⟩

/-- C8 counterexample: the claim says a malformed hour spec (here `"25"`,
not a single hour in [0,23], not a range, not `"*"`) fails with
`ValidationError` and is never stored.  The only check at line 627 is
`re.search('[0-9-\*]', hour)`, which `"25"` passes, so `"25"` is stored
as the group's hour set and the mutation succeeds with no error. -/
theorem add_hour_malformed_cex :
    add defaultStore (some ("default")) (some ("25")) none none
      = some ⟨[("default"), ("default")], [(("default"), ⟨[("25")], [], [("*")]⟩)]⟩ := by
  decide

/-- C8 amended: for an existing group, the add-hour mutation never raises:
it always succeeds, stores `addHourList hours spec` (which keeps the old
hours untouched exactly when the weak character-class guard rejects the
spec — a silent no-op, not an error), and still appends the group name to
`active`. -/
theorem add_hour_no_validation (st : Store) (s spec : String) (gr : Group)
    (hs : s ≠ (""))
    (hlook : lookupGroup st (lowerStr s) = some gr) :
    add st (some s) (some spec) none none
      = some ⟨st.active ++ [lowerStr s],
              updateAssoc st.groups (lowerStr s) { gr with hours := addHourList gr.hours spec }⟩
    ∧ (hourGuard spec = false → addHourList gr.hours spec = gr.hours) := by
  have hgname : addGroupname (some s) = lowerStr s := by
    show (if s = ("") then ("default") else lowerStr s) = lowerStr s
    rw [if_neg hs]
  have hcreate : createStep st (some s) = st := by
    show (if s = ("") then st
      else
        match lookupGroup st (lowerStr s) with
        | some _ => st
        | none => setGroup st (lowerStr s) defaultGroup) = st
    rw [if_neg hs, hlook]
  constructor
  · unfold add
    rw [hgname, hcreate]
    cases hg : hourGuard spec with
    | true =>
      have hhs : hourStep st (lowerStr s) (some spec)
          = some (setGroup st (lowerStr s) { gr with hours := collapseHours gr.hours spec }) := by
        show (if hourGuard spec = true then
            match lookupGroup st (lowerStr s) with
            | none => none
            | some gr =>
              some (setGroup st (lowerStr s) { gr with hours := collapseHours gr.hours spec })
          else some st)
          = some (setGroup st (lowerStr s) { gr with hours := collapseHours gr.hours spec })
        rw [if_pos hg, hlook]
      rw [hhs]
      dsimp only [dayStep, domainStep]
      have hact : addHourList gr.hours spec = collapseHours gr.hours spec := by
        unfold addHourList
        rw [if_pos hg]
      rw [hact]
      rfl
    | false =>
      have hnot : ¬ (hourGuard spec = true) := by
        rw [hg]
        intro hc
        cases hc
      have hhs : hourStep st (lowerStr s) (some spec) = some st := by
        show (if hourGuard spec = true then
            match lookupGroup st (lowerStr s) with
            | none => none
            | some gr =>
              some (setGroup st (lowerStr s) { gr with hours := collapseHours gr.hours spec })
          else some st) = some st
        rw [if_neg hnot]
      rw [hhs]
      dsimp only [dayStep, domainStep]
      have hact : addHourList gr.hours spec = gr.hours := by
        unfold addHourList
        rw [if_neg hnot]
      rw [hact]
      have hgr : ({ gr with hours := gr.hours } : Group) = gr := rfl
      rw [hgr, updateAssoc_self st.groups (lowerStr s) gr hlook]
  · intro hg
    unfold addHourList
    rw [if_neg (by rw [hg]; intro hc; cases hc)]

/-- Witness for C8 amended: the default store, group `default`, malformed
spec `"25"` (stored because it passes the character-class guard). -/
theorem add_hour_no_validation_witness :
    (("default") : String) ≠ ("")
    ∧ lookupGroup defaultStore (lowerStr ("default")) = some defaultGroup
    ∧ add defaultStore (some ("default")) (some ("25")) none none
      = some ⟨defaultStore.active ++ [lowerStr ("default")],
              updateAssoc defaultStore.groups (lowerStr ("default"))
                { defaultGroup with hours := addHourList defaultGroup.hours ("25") }⟩ :=
  ⟨by decide, by decide,
   (add_hour_no_validation defaultStore ("default") ("25") defaultGroup
     (by decide) (by decide)).1⟩

theorem foldl_collect_none (st : Store) (now : Instant) : ∀ (names : List String),
    List.foldl (collectStep st now) none names = none
  | [] => rfl
  | _ :: rest => by
    rw [List.foldl_cons]
    show List.foldl (collectStep st now) none rest = none
    exact foldl_collect_none st now rest

theorem mem_foldl_insertUniq : ∀ (ds acc : List String) (d : String),
    d ∈ List.foldl insertUniq acc ds ↔ d ∈ acc ∨ d ∈ ds
  | [], acc, d => by simp
  | x :: ds, acc, d => by
    rw [List.foldl_cons, mem_foldl_insertUniq ds _ d]
    unfold insertUniq
    by_cases hx : x ∈ acc
    · rw [if_pos hx]
      constructor
      · rintro (h | h)
        · exact Or.inl h
        · exact Or.inr (List.mem_cons_of_mem _ h)
      · rintro (h | h)
        · exact Or.inl h
        · rcases List.mem_cons.mp h with rfl | h
          · exact Or.inl hx
          · exact Or.inr h
    · rw [if_neg hx]
      constructor
      · rintro (h | h)
        · rcases List.mem_cons.mp h with rfl | h
          · exact Or.inr (List.mem_cons_self _ _)
          · exact Or.inl h
        · exact Or.inr (List.mem_cons_of_mem _ h)
      · rintro (h | h)
        · exact Or.inl (List.mem_cons_of_mem _ h)
        · rcases List.mem_cons.mp h with rfl | h
          · exact Or.inl (List.mem_cons_self _ _)
          · exact Or.inr h

theorem nodup_insertUniq (acc : List String) (x : String) (h : acc.Nodup) :
    (insertUniq acc x).Nodup := by
  unfold insertUniq
  by_cases hx : x ∈ acc
  · rw [if_pos hx]
    exact h
  · rw [if_neg hx]
    exact List.nodup_cons.mpr ⟨hx, h⟩

theorem nodup_foldl_insertUniq : ∀ (ds acc : List String), acc.Nodup →
    (List.foldl insertUniq acc ds).Nodup
  | [], _, h => h
  | x :: ds, acc, h => by
    rw [List.foldl_cons]
    exact nodup_foldl_insertUniq ds _ (nodup_insertUniq acc x h)

theorem collect_mem (st : Store) (now : Instant) : ∀ (names acc res : List String),
    List.foldl (collectStep st now) (some acc) names = some res →
    ∀ d, d ∈ res ↔ d ∈ acc ∨ ∃ n gr, n ∈ names ∧ lookupGroup st n = some gr
      ∧ is_live st n now = some true ∧ d ∈ gr.domains
  | [], acc, res, h, d => by
    rw [List.foldl_nil] at h
    injection h with h
    subst h
    simp
  | n :: rest, acc, res, h, d => by
    rw [List.foldl_cons] at h
    cases e : lookupGroup st n with
    | none =>
      have hstep : collectStep st now (some acc) n = some acc := by
        show (match lookupGroup st n with
          | none => some acc
          | some gr =>
            match is_live st n now with
            | none => none
            | some true => some (gr.domains.foldl insertUniq acc)
            | some false => some acc) = some acc
        rw [e]
      rw [hstep] at h
      rw [collect_mem st now rest acc res h d]
      constructor
      · rintro (hd | ⟨m, gr2, hm, h1, h2, h3⟩)
        · exact Or.inl hd
        · exact Or.inr ⟨m, gr2, List.mem_cons_of_mem _ hm, h1, h2, h3⟩
      · rintro (hd | ⟨m, gr2, hm, h1, h2, h3⟩)
        · exact Or.inl hd
        · rcases List.mem_cons.mp hm with rfl | hm2
          · rw [e] at h1
            cases h1
          · exact Or.inr ⟨m, gr2, hm2, h1, h2, h3⟩
    | some gr =>
      cases hl : is_live st n now with
      | none =>
        have hstep : collectStep st now (some acc) n = none := by
          show (match lookupGroup st n with
            | none => some acc
            | some gr =>
              match is_live st n now with
              | none => none
              | some true => some (gr.domains.foldl insertUniq acc)
              | some false => some acc) = none
          rw [e, hl]
        rw [hstep, foldl_collect_none] at h
        cases h
      | some b =>
        cases b with
        | false =>
          have hstep : collectStep st now (some acc) n = some acc := by
            show (match lookupGroup st n with
              | none => some acc
              | some gr =>
                match is_live st n now with
                | none => none
                | some true => some (gr.domains.foldl insertUniq acc)
                | some false => some acc) = some acc
            rw [e, hl]
          rw [hstep] at h
          rw [collect_mem st now rest acc res h d]
          constructor
          · rintro (hd | ⟨m, gr2, hm, h1, h2, h3⟩)
            · exact Or.inl hd
            · exact Or.inr ⟨m, gr2, List.mem_cons_of_mem _ hm, h1, h2, h3⟩
          · rintro (hd | ⟨m, gr2, hm, h1, h2, h3⟩)
            · exact Or.inl hd
            · rcases List.mem_cons.mp hm with rfl | hm2
              · rw [e] at h1
                injection h1 with h1
                subst h1
                rw [hl] at h2
                injection h2 with h2
                cases h2
              · exact Or.inr ⟨m, gr2, hm2, h1, h2, h3⟩
        | true =>
          have hstep : collectStep st now (some acc) n
              = some (gr.domains.foldl insertUniq acc) := by
            show (match lookupGroup st n with
              | none => some acc
              | some gr =>
                match is_live st n now with
                | none => none
                | some true => some (gr.domains.foldl insertUniq acc)
                | some false => some acc) = some (gr.domains.foldl insertUniq acc)
            rw [e, hl]
          rw [hstep] at h
          rw [collect_mem st now rest _ res h d, mem_foldl_insertUniq]
          constructor
          · rintro ((hd | hd) | ⟨m, gr2, hm, h1, h2, h3⟩)
            · exact Or.inl hd
            · exact Or.inr ⟨n, gr, List.mem_cons_self _ _, e, hl, hd⟩
            · exact Or.inr ⟨m, gr2, List.mem_cons_of_mem _ hm, h1, h2, h3⟩
          · rintro (hd | ⟨m, gr2, hm, h1, h2, h3⟩)
            · exact Or.inl (Or.inl hd)
            · rcases List.mem_cons.mp hm with rfl | hm2
              · rw [e] at h1
                injection h1 with h1
                subst h1
                exact Or.inl (Or.inr h3)
              · exact Or.inr ⟨m, gr2, hm2, h1, h2, h3⟩

theorem collect_nodup (st : Store) (now : Instant) : ∀ (names acc res : List String),
    List.foldl (collectStep st now) (some acc) names = some res → acc.Nodup → res.Nodup
  | [], acc, res, h, hn => by
    rw [List.foldl_nil] at h
    injection h with h
    subst h
    exact hn
  | n :: rest, acc, res, h, hn => by
    rw [List.foldl_cons] at h
    cases e : lookupGroup st n with
    | none =>
      have hstep : collectStep st now (some acc) n = some acc := by
        show (match lookupGroup st n with
          | none => some acc
          | some gr =>
            match is_live st n now with
            | none => none
            | some true => some (gr.domains.foldl insertUniq acc)
            | some false => some acc) = some acc
        rw [e]
      rw [hstep] at h
      exact collect_nodup st now rest acc res h hn
    | some gr =>
      cases hl : is_live st n now with
      | none =>
        have hstep : collectStep st now (some acc) n = none := by
          show (match lookupGroup st n with
            | none => some acc
            | some gr =>
              match is_live st n now with
              | none => none
              | some true => some (gr.domains.foldl insertUniq acc)
              | some false => some acc) = none
          rw [e, hl]
        rw [hstep, foldl_collect_none] at h
        cases h
      | some b =>
        cases b with
        | false =>
          have hstep : collectStep st now (some acc) n = some acc := by
            show (match lookupGroup st n with
              | none => some acc
              | some gr =>
                match is_live st n now with
                | none => none
                | some true => some (gr.domains.foldl insertUniq acc)
                | some false => some acc) = some acc
            rw [e, hl]
          rw [hstep] at h
          exact collect_nodup st now rest acc res h hn
        | true =>
          have hstep : collectStep st now (some acc) n
              = some (gr.domains.foldl insertUniq acc) := by
            show (match lookupGroup st n with
              | none => some acc
              | some gr =>
                match is_live st n now with
                | none => none
                | some true => some (gr.domains.foldl insertUniq acc)
                | some false => some acc) = some (gr.domains.foldl insertUniq acc)
            rw [e, hl]
          rw [hstep] at h
          exact collect_nodup st now rest _ res h (nodup_foldl_insertUniq gr.domains acc hn)

theorem mem_synthesize (st : Store) (now : Instant) (res : List String)
    (h : synthesize st now = some res) (d : String) :
    d ∈ res ↔ ∃ n gr, n ∈ st.active ∧ lookupGroup st n = some gr
      ∧ is_live st n now = some true ∧ d ∈ gr.domains := by
  unfold synthesize at h
  cases hc : List.foldl (collectStep st now) (some []) st.active with
  | none =>
    rw [hc] at h
    cases h
  | some l0 =>
    rw [hc, Option.map_some'] at h
    injection h with h
    rw [← h]
    unfold strSort
    rw [List.mem_insertionSort, collect_mem st now st.active [] l0 hc d]
    simp

/-- C4: under a successful synthesis, a domain is in the result iff some
group name in `active` exists in `groups`, is live at the instant, and
contains the domain; the result is sorted byte-lexicographically
ascending and duplicate-free (a deduplicated union); and a name absent
from `groups` can be added to `active` without changing the result and
without raising. -/
theorem synthesize_spec (st : Store) (now : Instant) (res : List String)
    (hsyn : synthesize st now = some res) :
    (∀ d, d ∈ res ↔ ∃ n gr, n ∈ st.active ∧ lookupGroup st n = some gr
      ∧ is_live st n now = some true ∧ d ∈ gr.domains)
    ∧ List.Sorted (fun a b => strLeb a b = true) res
    ∧ res.Nodup
    ∧ ∀ name, lookupGroup st name = none →
        synthesize { st with active := name :: st.active } now = some res := by
  refine ⟨fun d => mem_synthesize st now res hsyn d, ?_, ?_, ?_⟩
  · unfold synthesize at hsyn
    cases hc : List.foldl (collectStep st now) (some []) st.active with
    | none =>
      rw [hc] at hsyn
      cases hsyn
    | some l0 =>
      rw [hc, Option.map_some'] at hsyn
      injection hsyn with hsyn
      rw [← hsyn]
      exact List.sorted_insertionSort _ l0
  · unfold synthesize at hsyn
    cases hc : List.foldl (collectStep st now) (some []) st.active with
    | none =>
      rw [hc] at hsyn
      cases hsyn
    | some l0 =>
      rw [hc, Option.map_some'] at hsyn
      injection hsyn with hsyn
      rw [← hsyn]
      unfold strSort
      exact ((List.perm_insertionSort _ l0).nodup_iff).mpr
        (collect_nodup st now st.active [] l0 hc (List.nodup_nil))
  · intro name hnone
    unfold synthesize at hsyn ⊢
    have hcs : collectStep { st with active := name :: st.active } now = collectStep st now :=
      rfl
    rw [hcs]
    show (List.foldl (collectStep st now) (some []) (name :: st.active)).map strSort = some res
    rw [List.foldl_cons]
    have hstep : collectStep st now (some []) name = some [] := by
      show (match lookupGroup st name with
        | none => some ([] : List String)
        | some gr =>
          match is_live st name now with
          | none => none
          | some true => some (gr.domains.foldl insertUniq [])
          | some false => some []) = some []
      rw [hnone]
    rw [hstep]
    exact hsyn

/-- Store used for the C4 witness: one live group `a` with two domains
and a dangling active name `ghost` that names no group. -/
def wStore : Store :=
  ⟨[("a"), ("ghost")], [(("a"), ⟨[("*")], [("x.com"), ("b.com")], [("*")]⟩)]⟩

/-- Witness for C4: on `wStore` at Monday 10:00 the synthesized list is
the sorted deduplicated pair, sorted ascending, the dangling name
notwithstanding. -/
theorem synthesize_spec_witness :
    synthesize wStore ⟨10, 0⟩ = some [("b.com"), ("x.com")]
    ∧ List.Sorted (fun a b => strLeb a b = true) [("b.com"), ("x.com")] :=
  ⟨by decide,
   (synthesize_spec wStore ⟨10, 0⟩ [("b.com"), ("x.com")] (by decide)).2.1⟩

theorem lookup_setGroup_self (st : Store) (n : String) (gr : Group) :
    lookupGroup (setGroup st n gr) n = some gr :=
  lookup_updateAssoc_self st.groups n gr

/-- C9: emptying the hours of an existing group leaves it with an empty
hours list (not the wildcard), and `_is_live` for that group is then
false at every instant: an empty hour set matches nothing, unlike the
wildcard. -/
theorem empty_hours_never_live (st : Store) (s : String) (gr : Group)
    (hs : s ≠ ("")) (hlook : lookupGroup st (lowerStr s) = some gr) :
    lookupGroup (emptyField st (some s) ("hours")) (lowerStr s) = some { gr with hours := [] }
    ∧ ∀ now : Instant, is_live (emptyField st (some s) ("hours")) (lowerStr s) now
        = some false := by
  have hemp : emptyField st (some s) ("hours")
      = setGroup st (lowerStr s) { gr with hours := [] } := by
    show (if s = ("") then st
      else
        match lookupGroup st (lowerStr s) with
        | none => st
        | some gr =>
          if (("hours") : String) = ("days") then setGroup st (lowerStr s) { gr with days := [] }
          else if (("hours") : String) = ("domains") then
            setGroup st (lowerStr s) { gr with domains := [] }
          else if (("hours") : String) = ("hours") then
            setGroup st (lowerStr s) { gr with hours := [] }
          else st) = setGroup st (lowerStr s) { gr with hours := [] }
    rw [if_neg hs, hlook]
    show (if (("hours") : String) = ("days") then
        setGroup st (lowerStr s) { gr with days := [] }
      else if (("hours") : String) = ("domains") then
        setGroup st (lowerStr s) { gr with domains := [] }
      else if (("hours") : String) = ("hours") then
        setGroup st (lowerStr s) { gr with hours := [] }
      else st) = setGroup st (lowerStr s) { gr with hours := [] }
    rw [if_neg (by decide), if_neg (by decide), if_pos rfl]
  have h1 : lookupGroup (emptyField st (some s) ("hours")) (lowerStr s)
      = some { gr with hours := [] } := by
    rw [hemp]
    exact lookup_setGroup_self st (lowerStr s) { gr with hours := [] }
  refine ⟨h1, fun now => ?_⟩
  unfold is_live
  rw [h1]
  rfl

/-- Store for the C9 witness: a `work` group with a 9-17 window on
Monday. -/
def st9 : Store :=
  ⟨[("work")], [(("work"), ⟨[("9-17")], [("x.com")], [("Monday")]⟩)]⟩

/-- Witness for C9 at the `work` group of `st9`, evaluated Monday 10:00. -/
theorem empty_hours_never_live_witness :
    (("work") : String) ≠ ("")
    ∧ lookupGroup st9 (lowerStr ("work")) = some ⟨[("9-17")], [("x.com")], [("Monday")]⟩
    ∧ is_live (emptyField st9 (some ("work")) ("hours")) (lowerStr ("work")) ⟨10, 0⟩
      = some false :=
  ⟨by decide, by decide,
   (empty_hours_never_live st9 ("work") ⟨[("9-17")], [("x.com")], [("Monday")]⟩
     (by decide) (by decide)).2 ⟨10, 0⟩⟩

/-- C10: when `active` holds an existing group's name at least twice
(reachable because `add` appends on every call), one `deactivate` removes
exactly one occurrence — `list.remove` deletes the first match — so the
name is still in `active` and a domain of that (live) group is still in
the synthesized result. -/
theorem deactivate_removes_one (st : Store) (name : String) (gr : Group) (now : Instant)
    (res : List String) (d : String)
    (hcount : 2 ≤ st.active.count name)
    (hlook : lookupGroup st name = some gr)
    (hlive : is_live st name now = some true)
    (hd : d ∈ gr.domains)
    (hsyn : synthesize (deactivate st (some name)) now = some res) :
    name ∈ (deactivate st (some name)).active
    ∧ (deactivate st (some name)).active.count name = st.active.count name - 1
    ∧ d ∈ res := by
  have hmem : name ∈ st.active := by
    by_contra hn
    rw [List.count_eq_zero_of_not_mem hn] at hcount
    omega
  have hsome : (lookupGroup st name).isSome := by
    rw [hlook]
    rfl
  have hde : deactivate st (some name) = { st with active := st.active.erase name } := by
    show (if name ∈ st.active ∧ (lookupGroup st name).isSome then
      { st with active := st.active.erase name } else st)
      = { st with active := st.active.erase name }
    rw [if_pos ⟨hmem, hsome⟩]
  have hcnt : (st.active.erase name).count name = st.active.count name - 1 :=
    List.count_erase_self name st.active
  have hmem2 : name ∈ st.active.erase name := by
    apply List.count_pos_iff.mp
    rw [hcnt]
    omega
  refine ⟨?_, ?_, ?_⟩
  · rw [hde]
    exact hmem2
  · rw [hde]
    exact hcnt
  · rw [mem_synthesize _ now res hsyn d]
    refine ⟨name, gr, ?_, ?_, ?_, hd⟩
    · rw [hde]
      exact hmem2
    · rw [hde]
      exact hlook
    · rw [hde]
      exact hlive

/-- Store for the C10 witness: `active = ["a", "a"]` with one live group
`a`. -/
def st10 : Store := ⟨[("a"), ("a")], [(("a"), ⟨[("*")], [("x.com")], [("*")]⟩)]⟩

/-- Witness for C10 on `st10`: after one deactivate of `a` the group is
still active and `x.com` is still synthesized. -/
theorem deactivate_removes_one_witness :
    2 ≤ st10.active.count ("a")
    ∧ lookupGroup st10 ("a") = some ⟨[("*")], [("x.com")], [("*")]⟩
    ∧ is_live st10 ("a") ⟨10, 0⟩ = some true
    ∧ synthesize (deactivate st10 (some ("a"))) ⟨10, 0⟩ = some [("x.com")]
    ∧ ("a") ∈ (deactivate st10 (some ("a"))).active
    ∧ ("x.com") ∈ [("x.com")] :=
  ⟨by decide, by decide, by decide, by decide,
   (deactivate_removes_one st10 ("a") ⟨[("*")], [("x.com")], [("*")]⟩ ⟨10, 0⟩
     [("x.com")] ("x.com") (by decide) (by decide) (by decide) (by decide) (by decide)).1,
   (deactivate_removes_one st10 ("a") ⟨[("*")], [("x.com")], [("*")]⟩ ⟨10, 0⟩
     [("x.com")] ("x.com") (by decide) (by decide) (by decide) (by decide) (by decide)).2.2⟩
